import Mathlib

/-!
Shallow embedding of the tiedot `chunkfile` collection-data-file layer
(package `chunkfile`, file with `ColFile` and its operations), together
with theorems checking the natural-language specification against it.

The byte buffer of `commonfile.File` is modelled as a total function
`Nat → Nat` (each value a byte, i.e. `< 256` on well-formed stores)
plus the explicit `Size` (allocated capacity) and `UsedSize`
(high-water mark) fields.  Machine integers (`uint64`) are modelled as
`Nat`; the only place where 64-bit wraparound can matter is the
`binary.Uvarint` accumulator, where the embedding takes the value
`% 2^64` exactly as Go's shift-and-or arithmetic does.
-/

namespace chunkfile

/-- Size of collection data file (`COL_FILE_SIZE = 512 * 1024 * 1`). -/
def COL_FILE_SIZE : Nat := 512 * 1024 * 1

/-- Max single document size (`DOC_MAX_ROOM = 512 * 1024 * 1`). -/
def DOC_MAX_ROOM : Nat := 512 * 1024 * 1

/-- Size of document header: validity byte plus 10-byte room field. -/
def DOC_HEADER_SIZE : Nat := 1 + 10

/-- Document valid flag. -/
def DOC_VALID : Nat := 1

/-- Document invalid flag. -/
def DOC_INVALID : Nat := 0

/-- Length of the pre-compiled document padding string `PADDING`
(8 concatenated runs of 128 spaces, so 1024 bytes). -/
def LEN_PADDING : Nat := 1024

/-- The padding byte: every character of `PADDING` is the space `0x20`. -/
def PADDING_BYTE : Nat := 32

/-- Read `n` consecutive bytes starting at `off` from a buffer
(the slice `buf[off : off+n]`). -/
def readBytes (buf : Nat → Nat) (off n : Nat) : List Nat :=
  (List.range n).map fun k => buf (off + k)

/-- Write the byte list `d` into the buffer starting at `off`
(the effect of Go's `copy(buf[off:off+len(d)], d)`). -/
def writeBytes (buf : Nat → Nat) (off : Nat) (d : List Nat) : Nat → Nat :=
  fun i => if off ≤ i ∧ i - off < d.length then d.getD (i - off) 0 else buf i

/-- Fill the byte range `[a, b)` of the buffer with the padding byte.
This is the effect of the chunked padding loop in `Insert`/`Update`:
the loop copies prefixes of `PADDING` (a run of identical space bytes)
over consecutive segments of at most `LEN_PADDING` bytes until the
whole range `[paddingBegin, paddingEnd)` is covered, so pointwise every
offset of the range receives `PADDING_BYTE`. -/
def fillRange (buf : Nat → Nat) (a b : Nat) : Nat → Nat :=
  fun i => if a ≤ i ∧ i < b then PADDING_BYTE else buf i

/-- Loop of `binary.PutUvarint` with an explicit iteration bound:
while `x ≥ 0x80`, emit `byte(x) | 0x80` and shift right by 7; finally
emit `byte(x)`.  A `uint64` shifts to zero after at most 9 steps
(`x >> 63 < 2`), so with fuel 9 the bound is never reached for any
value a `uint64` can hold, and on exhaustion `byte(x) = x` there too —
the fuel version is exact for all `x < 2^64`. -/
def putUvarintLoop : Nat → Nat → List Nat
  | 0, x => [x]
  | fuel + 1, x =>
    if x < 128 then [x]
    else (x % 128 + 128) :: putUvarintLoop fuel (x / 128)

/-- Encoding of `binary.PutUvarint`: the little-endian base-128 byte
list of `x`, continuation bit `0x80` on every byte but the last. -/
def putUvarintBytes (x : Nat) : List Nat := putUvarintLoop 9 x

/-- Loop of Go's `binary.Uvarint`: `i` is the byte index, `acc` the
accumulated value (`< 2^64`), `s` the current shift.  Returns the
decoded value and the number of bytes read (negative on overflow,
the second component of Go's return).  `MaxVarintLen64 = 10`. -/
def uvarintLoop : List Nat → Nat → Nat → Nat → Nat × Int
  | [], _, _, _ => (0, 0)
  | b :: rest, i, acc, s =>
    if i = 10 then (0, -(Int.ofNat i + 1))
    else if b < 128 then
      if i = 9 ∧ 1 < b then (0, -(Int.ofNat i + 1))
      else ((acc ||| (b <<< s)) % 2 ^ 64, Int.ofNat i + 1)
    else uvarintLoop rest (i + 1) ((acc ||| ((b % 128) <<< s)) % 2 ^ 64) (s + 7)

/-- Go's `binary.Uvarint` on a byte slice. -/
def uvarint (bytes : List Nat) : Nat × Int :=
  uvarintLoop bytes 0 0 0

/-- The collection file: the `commonfile.File` collaborator viewed as
its buffer, allocated size, used size and diagnostic name, as the
`chunkfile` layer uses it. -/
structure ColFile where
  Name : String
  Buf : Nat → Nat
  Size : Nat
  UsedSize : Nat

/-- The distinguishable error kinds produced by `Insert` and `Update`
(`errors.New(fmt.Sprintf(...))` in the source): "Document is too
large", "Updated document is too large", and
"Document %d does not exist in %s". -/
inductive Err where
  | docTooLarge : Err
  | updatedDocTooLarge : Err
  | docNotExist (id : Nat) (name : String) : Err
deriving DecidableEq, Repr

/-- Modelled from the spec: `commonfile.File.CheckSize` (the growable
buffer collaborator is not part of the sources at hand) — whether the
allocated region already has room for `n` more bytes past the
high-water mark, i.e. `Size ≥ UsedSize + n`. -/
def CheckSize (col : ColFile) (n : Nat) : Bool :=
  decide (col.UsedSize + n ≤ col.Size)

/-- Modelled from the spec: `commonfile.File.CheckSizeAndEnsure` (the
growable buffer collaborator is not part of the sources at hand) —
grows `Size` in fixed increments of the file-growth granularity
(`COL_FILE_SIZE`, 512 KiB) until `Size ≥ UsedSize + n`; newly
allocated bytes are zero.  `UsedSize` is unchanged. -/
def CheckSizeAndEnsure (col : ColFile) (n : Nat) : ColFile :=
  if col.UsedSize + n ≤ col.Size then col
  else
    let deficit := col.UsedSize + n - col.Size
    let grown := (deficit + COL_FILE_SIZE - 1) / COL_FILE_SIZE * COL_FILE_SIZE
    { col with
      Size := col.Size + grown
      Buf := fun i => if i < col.Size then col.Buf i else 0 }

/-- The `room` field decoded from the 10 bytes following the validity
byte: `binary.Uvarint(col.File.Buf[id+1 : id+11])`, value component. -/
def decodedRoom (col : ColFile) (id : Nat) : Nat :=
  (uvarint (readBytes col.Buf (id + 1) 10)).1

/-- Retrieve document data given its ID (`ColFile.Read`).  `none` is
Go's `nil` return (absent document). -/
def Read (col : ColFile) (id : Nat) : Option (List Nat) :=
  if col.UsedSize < DOC_HEADER_SIZE ∨ id ≥ col.UsedSize - DOC_HEADER_SIZE then
    none
  else if col.Buf id ≠ DOC_VALID then
    none
  else
    let room := decodedRoom col id
    if room > DOC_MAX_ROOM then
      none
    else
      let docEnd := id + DOC_HEADER_SIZE + room
      if docEnd ≥ col.Size then
        none
      else
        some (readBytes col.Buf (id + DOC_HEADER_SIZE) room)

/-- The store produced by the success path of `ColFile.Insert`: grow if
needed, advance the high-water mark by a full slot, then write the
header (validity byte and varint-encoded room), the document data, and
the padding fill.  The new document's ID is `col.UsedSize`. -/
def insertLayout (col : ColFile) (data : List Nat) : ColFile :=
  let len64 := data.length
  let room := len64 + len64
  let id := col.UsedSize
  let col1 := if CheckSize col (DOC_HEADER_SIZE + room) then col
              else CheckSizeAndEnsure col (DOC_HEADER_SIZE + room)
  let col2 := { col1 with UsedSize := id + DOC_HEADER_SIZE + room }
  let buf1 := writeBytes col2.Buf id [DOC_VALID]
  let buf2 := writeBytes buf1 (id + 1) (putUvarintBytes room)
  let buf3 := writeBytes buf2 (id + DOC_HEADER_SIZE) data
  let buf4 := fillRange buf3 (id + DOC_HEADER_SIZE + len64) (id + DOC_HEADER_SIZE + room)
  { col2 with Buf := buf4 }

/-- Insert a document, return the updated store, the new document ID
and the error result (`ColFile.Insert`).  On the error path Go's named
return `id` keeps its zero value. -/
def Insert (col : ColFile) (data : List Nat) : ColFile × Nat × Option Err :=
  let len64 := data.length
  let room := len64 + len64
  if room > DOC_MAX_ROOM then
    (col, 0, some Err.docTooLarge)
  else
    (insertLayout col data, col.UsedSize, none)

/-- Delete a document (`ColFile.Delete`). -/
def Delete (col : ColFile) (id : Nat) : ColFile :=
  if col.UsedSize < DOC_HEADER_SIZE ∨ id ≥ col.UsedSize - DOC_HEADER_SIZE then
    col
  else if col.Buf id = DOC_VALID then
    { col with Buf := writeBytes col.Buf id [DOC_INVALID] }
  else
    col

/-- The store produced by the in-place path of `ColFile.Update`:
overwrite the payload prefix with `data`, then re-run the padding fill
over the remainder of the slot's `room`, exactly as in `Insert`. -/
def updateInPlace (col : ColFile) (id : Nat) (data : List Nat) (room : Nat) : ColFile :=
  let len64 := data.length
  let buf1 := writeBytes col.Buf (id + DOC_HEADER_SIZE) data
  let buf2 := fillRange buf1 (id + DOC_HEADER_SIZE + len64) (id + DOC_HEADER_SIZE + room)
  { col with Buf := buf2 }

/-- Update a document, return the updated store, the document's new ID
and the error result (`ColFile.Update`). -/
def Update (col : ColFile) (id : Nat) (data : List Nat) : ColFile × Nat × Option Err :=
  let len64 := data.length
  if len64 > DOC_MAX_ROOM then
    (col, 0, some Err.updatedDocTooLarge)
  else if col.UsedSize < DOC_HEADER_SIZE ∨ id ≥ col.UsedSize - DOC_HEADER_SIZE then
    (col, 0, some (Err.docNotExist id col.Name))
  else if col.Buf id ≠ DOC_VALID then
    (col, 0, some (Err.docNotExist id col.Name))
  else
    let room := decodedRoom col id
    if room > DOC_MAX_ROOM ∨ id + room ≥ col.UsedSize then
      (col, 0, some (Err.docNotExist id col.Name))
    else if len64 ≤ room then
      (updateInPlace col id data room, id, none)
    else
      Insert (Delete col id) data

/-- The resynchronization loop inside `ForAll`'s corruption branch,
with an explicit iteration bound:
`while Buf[addr] != DOC_VALID && Buf[addr] != DOC_INVALID && addr < UsedSize-DOC_HEADER_SIZE: addr++`. -/
def resyncLoop : Nat → ColFile → Nat → Nat
  | 0, _, addr => addr
  | fuel + 1, col, addr =>
    if col.Buf addr ≠ DOC_VALID ∧ col.Buf addr ≠ DOC_INVALID ∧
       addr < col.UsedSize - DOC_HEADER_SIZE then
      resyncLoop fuel col (addr + 1)
    else
      addr

/-- The resynchronization scan of `ForAll`'s corruption branch:
`for addr++; Buf[addr] != DOC_VALID && Buf[addr] != DOC_INVALID && addr < UsedSize-DOC_HEADER_SIZE; addr++`.
This function is the loop after the initial `addr++`, so `ForAll`
calls it at `addr + 1`.  The loop leaves the cursor at or below
`UsedSize - DOC_HEADER_SIZE + 1`, advancing by one each iteration, so
the fuel `UsedSize - DOC_HEADER_SIZE + 1 - addr` is exact: when it is
zero the cursor is already at or past the boundary and the Go loop
would stop immediately as well. -/
def resync (col : ColFile) (addr : Nat) : Nat :=
  resyncLoop (col.UsedSize - DOC_HEADER_SIZE + 1 - addr) col addr

/-- The scan loop of `ColFile.ForAll` starting at cursor `addr`, with
an explicit iteration bound.  Returns the list of `(id, payload)`
pairs passed to the visitor `f` (in visit order) and the list of
offsets at which a corrupted header was reported (the `tdlog.Errorf`
corruption signal).  The cursor strictly increases and the loop
continues only while `addr < UsedSize`, so any fuel exceeding
`UsedSize - addr` makes the bound unreachable. -/
def forAllLoopF : Nat → ColFile → (Nat → List Nat → Bool) → Nat →
    List (Nat × List Nat) × List Nat
  | 0, _, _, _ => ([], [])
  | fuel + 1, col, f, addr =>
    if col.UsedSize < DOC_HEADER_SIZE ∨ addr ≥ col.UsedSize - DOC_HEADER_SIZE then
      ([], [])
    else
      let validity := col.Buf addr
      let room := decodedRoom col addr
      if validity ≠ DOC_VALID ∧ validity ≠ DOC_INVALID ∨ room > DOC_MAX_ROOM then
        let r := forAllLoopF fuel col f (resync col (addr + 1))
        (r.1, addr :: r.2)
      else if validity = DOC_VALID then
        let doc := readBytes col.Buf (addr + DOC_HEADER_SIZE) room
        if f addr doc then
          let r := forAllLoopF fuel col f (addr + DOC_HEADER_SIZE + room)
          ((addr, doc) :: r.1, r.2)
        else
          ([(addr, doc)], [])
      else
        forAllLoopF fuel col f (addr + DOC_HEADER_SIZE + room)

/-- Scan the entire data file (`ColFile.ForAll`): visit every document
from offset 0, reporting corrupted headers.  The fuel `UsedSize + 1`
strictly exceeds the number of loop iterations possible from cursor 0. -/
def ForAll (col : ColFile) (f : Nat → List Nat → Bool) :
    List (Nat × List Nat) × List Nat :=
  forAllLoopF (col.UsedSize + 1) col f 0

/-- One store operation, for stating properties of arbitrary finite
operation sequences. -/
inductive Op where
  | ins (data : List Nat) : Op
  | upd (id : Nat) (data : List Nat) : Op
  | del (id : Nat) : Op

/-- Apply one operation to the store, keeping only the resulting store. -/
def applyOp (col : ColFile) : Op → ColFile
  | .ins d => (Insert col d).1
  | .upd i d => (Update col i d).1
  | .del i => Delete col i

/-- Run a finite sequence of operations left to right. -/
def runOps (col : ColFile) : List Op → ColFile
  | [] => col
  | o :: rest => runOps (applyOp col o) rest

/-- A buffer holding the given byte list at offset 0 and zeros beyond. -/
def mkBuf (l : List Nat) : Nat → Nat := fun i => l.getD i 0

/-- A freshly opened, empty collection file: all-zero buffer of one
growth granularity, nothing used yet (the initial state `OpenCol`
produces through the growable-buffer collaborator). -/
def fresh : ColFile where
  Name := "col"
  Buf := fun _ => 0
  Size := COL_FILE_SIZE
  UsedSize := 0

/-- Store whose single document slot ends exactly at the allocated
size: the slot at 0 is valid with room 2, and `0 + 11 + 2 = 13 = Size`. -/
def S2x : ColFile where
  Name := "t"
  Buf := mkBuf [1, 2]
  Size := 13
  UsedSize := 13

/-- Store where `Read`'s and `Update`'s room checks disagree: the slot
at 0 is valid with decoded room 25, `0 + 11 + 25 = 36 < Size = 40`
(so `Read` succeeds) but `0 + 25 = 25 ≥ UsedSize = 20` (so `Update`
reports the document as nonexistent). -/
def S3x : ColFile where
  Name := "t"
  Buf := mkBuf [1, 25]
  Size := 40
  UsedSize := 20

/-- Store with three valid one-byte documents (slots at 0, 13 and 26,
each of room 2) whose middle header has been overwritten with the
corrupt bytes `5, 1, 100, 0, ...`: the validity byte 5 fails the
soundness check, but the byte 1 right after it makes the
byte-by-byte resynchronization stop inside the corrupted header. -/
def S6bad : ColFile where
  Name := "t"
  Buf := mkBuf ([1, 2, 0, 0, 0, 0, 0, 0, 0, 0, 0, 65, 32] ++
    [5, 1, 100, 0, 0, 0, 0, 0, 0, 0, 0] ++ [66, 32] ++
    [1, 2, 0, 0, 0, 0, 0, 0, 0, 0, 0, 67, 32])
  Size := COL_FILE_SIZE
  UsedSize := 39

/-- Store with three valid one-byte documents whose middle header has
been overwritten with bytes `5, 200, ..., 200`: the validity byte 5
fails the soundness check and no byte of the corrupted region equals
`DOC_VALID` or `DOC_INVALID`, so resynchronization crosses the whole
damaged slot and realigns on the third document's header. -/
def S6ok : ColFile where
  Name := "t"
  Buf := mkBuf ([1, 2, 0, 0, 0, 0, 0, 0, 0, 0, 0, 65, 32] ++
    [5, 200, 200, 200, 200, 200, 200, 200, 200, 200, 200] ++ [66, 32] ++
    [1, 2, 0, 0, 0, 0, 0, 0, 0, 0, 0, 67, 32])
  Size := COL_FILE_SIZE
  UsedSize := 39

/-- A contiguous run of valid document slots: `slotsAt col addr rooms`
says that starting at offset `addr` the buffer holds one valid slot of
positive decoded room `r` for each `r` in `rooms`, laid out
back-to-back. -/
def slotsAt (col : ColFile) (addr : Nat) : List Nat → Prop
  | [] => True
  | room :: rest =>
      col.Buf addr = DOC_VALID ∧ decodedRoom col addr = room ∧
      room ≤ DOC_MAX_ROOM ∧ 0 < room ∧
      slotsAt col (addr + DOC_HEADER_SIZE + room) rest

/-- Offset one past the end of a run of slots with the given rooms. -/
def endOf (addr : Nat) : List Nat → Nat
  | [] => addr
  | room :: rest => endOf (addr + DOC_HEADER_SIZE + room) rest

/-- The `(id, payload)` pairs of a run of slots with the given rooms. -/
def docsOf (col : ColFile) (addr : Nat) : List Nat → List (Nat × List Nat)
  | [] => []
  | room :: rest =>
      (addr, readBytes col.Buf (addr + DOC_HEADER_SIZE) room) ::
        docsOf col (addr + DOC_HEADER_SIZE + room) rest

/-! ## Buffer read/write lemmas -/

theorem writeBytes_eq_of_lt (buf : Nat → Nat) (off : Nat) (d : List Nat)
    (i : Nat) (h : i < off) : writeBytes buf off d i = buf i := by
  simp only [writeBytes]
  rw [if_neg]
  omega

theorem writeBytes_eq_of_ge (buf : Nat → Nat) (off : Nat) (d : List Nat)
    (i : Nat) (h : off + d.length ≤ i) : writeBytes buf off d i = buf i := by
  simp only [writeBytes]
  rw [if_neg]
  omega

theorem writeBytes_getD (buf : Nat → Nat) (off : Nat) (d : List Nat)
    (k : Nat) (h : k < d.length) : writeBytes buf off d (off + k) = d.getD k 0 := by
  simp only [writeBytes]
  rw [if_pos (by omega)]
  congr 1
  omega

theorem fillRange_eq_of_lt (buf : Nat → Nat) (a b i : Nat) (h : i < a) :
    fillRange buf a b i = buf i := by
  simp only [fillRange]
  rw [if_neg]
  omega

theorem fillRange_eq_of_ge (buf : Nat → Nat) (a b i : Nat) (h : b ≤ i) :
    fillRange buf a b i = buf i := by
  simp only [fillRange]
  rw [if_neg]
  omega

theorem fillRange_eq_of_mem (buf : Nat → Nat) (a b i : Nat)
    (h1 : a ≤ i) (h2 : i < b) : fillRange buf a b i = PADDING_BYTE := by
  simp only [fillRange]
  rw [if_pos ⟨h1, h2⟩]

theorem readBytes_length (buf : Nat → Nat) (off n : Nat) :
    (readBytes buf off n).length = n := by
  simp [readBytes]

theorem readBytes_getElem (buf : Nat → Nat) (off n k : Nat)
    (hk : k < (readBytes buf off n).length) :
    (readBytes buf off n)[k] = buf (off + k) := by
  simp [readBytes]

theorem readBytes_congr (buf1 buf2 : Nat → Nat) (off n : Nat)
    (h : ∀ k, k < n → buf1 (off + k) = buf2 (off + k)) :
    readBytes buf1 off n = readBytes buf2 off n := by
  apply List.ext_getElem (by simp [readBytes_length])
  intro k h1 h2
  rw [readBytes_getElem buf1 off n k h1, readBytes_getElem buf2 off n k h2]
  exact h k (by simpa [readBytes_length] using h1)

theorem readBytes_add (buf : Nat → Nat) (off m n : Nat) :
    readBytes buf off (m + n) = readBytes buf off m ++ readBytes buf (off + m) n := by
  apply List.ext_getElem (by simp [readBytes_length])
  intro k h1 h2
  rw [readBytes_getElem buf off (m + n) k h1]
  rcases Nat.lt_or_ge k m with hk | hk
  · rw [List.getElem_append_left (by simpa [readBytes_length] using hk)]
    rw [readBytes_getElem buf off m k (by simpa [readBytes_length] using hk)]
  · rw [List.getElem_append_right (by simpa [readBytes_length] using hk)]
    rw [readBytes_getElem buf (off + m) n (k - (readBytes buf off m).length)
      (by simp only [readBytes_length] at *; omega)]
    simp only [readBytes_length]
    congr 1
    omega

theorem readBytes_writeBytes (buf : Nat → Nat) (off : Nat) (d : List Nat) :
    readBytes (writeBytes buf off d) off d.length = d := by
  apply List.ext_getElem (by simp [readBytes_length])
  intro k h1 h2
  rw [readBytes_getElem _ off d.length k h1]
  rw [writeBytes_getD buf off d k (by simpa [readBytes_length] using h1)]
  exact List.getD_eq_getElem d 0 h2

theorem readBytes_const (buf : Nat → Nat) (off n c : Nat)
    (h : ∀ k, k < n → buf (off + k) = c) :
    readBytes buf off n = List.replicate n c := by
  apply List.ext_getElem (by simp [readBytes_length])
  intro k h1 h2
  rw [readBytes_getElem buf off n k h1]
  rw [List.getElem_replicate]
  exact h k (by simpa [readBytes_length] using h1)

/-! ## Varint codec lemmas -/

theorem putUvarintLoop_length_pos (fuel x : Nat) : 0 < (putUvarintLoop fuel x).length := by
  cases fuel with
  | zero => simp [putUvarintLoop]
  | succ n =>
    rw [putUvarintLoop]
    split <;> simp

theorem putUvarintLoop_length_le (fuel : Nat) :
    ∀ (x L : Nat), 0 < L → L ≤ fuel + 1 → x < 2 ^ (7 * L) →
      (putUvarintLoop fuel x).length ≤ L := by
  induction fuel with
  | zero =>
    intro x L hL _ _
    simp only [putUvarintLoop, List.length_cons, List.length_nil]
    omega
  | succ n ih =>
    intro x L hL hfuel h
    rw [putUvarintLoop]
    split
    · simp only [List.length_cons, List.length_nil]
      omega
    · next hx =>
      simp only [List.length_cons]
      rcases L with _ | L'
      · omega
      · have hL' : 0 < L' := by
          rcases Nat.eq_zero_or_pos L' with hz | hz
          · subst hz
            norm_num at h
            omega
          · exact hz
        have hx' : x / 128 < 2 ^ (7 * L') := by
          have h2 : 2 ^ (7 * (L' + 1)) = 2 ^ (7 * L') * 128 := by
            rw [Nat.mul_add, Nat.pow_add]
          rw [h2] at h
          exact Nat.div_lt_of_lt_mul (by omega)
        have := ih (x / 128) L' hL' (by omega) hx'
        omega

theorem uvarintLoop_last (x i acc s : Nat) (rest : List Nat) (hx : x < 128)
    (hacc : acc < 2 ^ s) (hs : s + 7 ≤ 63) (hi : i + 1 ≤ 9) :
    uvarintLoop (x :: rest) i acc s = (acc + x * 2 ^ s, Int.ofNat (i + 1)) := by
  rw [uvarintLoop]
  rw [if_neg (show ¬(i = 10) by omega), if_pos hx,
    if_neg (show ¬(i = 9 ∧ 1 < x) by omega)]
  have h0 : x <<< s = 2 ^ s * x := by rw [Nat.shiftLeft_eq, Nat.mul_comm]
  rw [h0, Nat.lor_comm, ← Nat.mul_add_lt_is_or hacc x]
  have e1 : (2 : Nat) ^ (s + 7) = 128 * 2 ^ s := by
    rw [Nat.pow_add]
    ring
  have hxs : 2 ^ s * x ≤ 2 ^ s * 127 := Nat.mul_le_mul_left _ (by omega)
  have e2 : (2 : Nat) ^ (s + 7) ≤ 2 ^ 63 :=
    Nat.pow_le_pow_right (by omega) (by omega)
  have e3 : (2 : Nat) ^ 63 + 2 ^ 63 = 2 ^ 64 := by norm_num
  rw [Nat.mod_eq_of_lt (by omega)]
  rw [Prod.mk.injEq]
  exact ⟨by rw [Nat.mul_comm]; omega, by rfl⟩

theorem uvarintLoop_putUvarintLoop (fuel : Nat) :
    ∀ (x : Nat) (rest : List Nat) (i acc s : Nat),
      x < 2 ^ (7 * (fuel + 1)) →
      acc < 2 ^ s →
      s + 7 * (putUvarintLoop fuel x).length ≤ 63 →
      i + (putUvarintLoop fuel x).length ≤ 9 →
      uvarintLoop (putUvarintLoop fuel x ++ rest) i acc s =
        (acc + x * 2 ^ s, Int.ofNat (i + (putUvarintLoop fuel x).length)) := by
  induction fuel with
  | zero =>
    intro x rest i acc s hx hacc hs hi
    have hx128 : x < 128 := by
      norm_num at hx
      omega
    simp only [putUvarintLoop, List.length_cons, List.length_nil] at hs hi ⊢
    rw [List.cons_append, List.nil_append]
    exact uvarintLoop_last x i acc s rest hx128 hacc (by omega) (by omega)
  | succ n ih =>
    intro x rest i acc s hx hacc hs hi
    by_cases hx128 : x < 128
    · rw [putUvarintLoop, if_pos hx128] at hs hi ⊢
      simp only [List.length_cons, List.length_nil] at hs hi ⊢
      rw [List.cons_append, List.nil_append]
      exact uvarintLoop_last x i acc s rest hx128 hacc (by omega) (by omega)
    · rw [putUvarintLoop, if_neg hx128] at hs hi ⊢
      simp only [List.length_cons] at hs hi ⊢
      rw [List.cons_append, uvarintLoop]
      have hm : x % 128 < 128 := Nat.mod_lt x (by omega)
      rw [if_neg (show ¬(i = 10) by omega),
        if_neg (show ¬(x % 128 + 128 < 128) by omega)]
      have hmod : (x % 128 + 128) % 128 = x % 128 := by omega
      rw [hmod]
      have h0 : (x % 128) <<< s = 2 ^ s * (x % 128) := by
        rw [Nat.shiftLeft_eq, Nat.mul_comm]
      rw [h0, Nat.lor_comm, ← Nat.mul_add_lt_is_or hacc (x % 128)]
      have e1 : (2 : Nat) ^ (s + 7) = 128 * 2 ^ s := by
        rw [Nat.pow_add]
        ring
      have hpos := putUvarintLoop_length_pos n (x / 128)
      have hxs : 2 ^ s * (x % 128) ≤ 2 ^ s * 127 := Nat.mul_le_mul_left _ (by omega)
      have hacc2 : 2 ^ s * (x % 128) + acc < 2 ^ (s + 7) := by omega
      have e2 : (2 : Nat) ^ (s + 7) ≤ 2 ^ 64 :=
        Nat.pow_le_pow_right (by omega) (by omega)
      rw [Nat.mod_eq_of_lt (by omega)]
      have hx2 : x / 128 < 2 ^ (7 * (n + 1)) := by
        have h2 : 2 ^ (7 * (n + 1 + 1)) = 2 ^ (7 * (n + 1)) * 128 := by
          rw [Nat.mul_add, Nat.pow_add]
        rw [h2] at hx
        exact Nat.div_lt_of_lt_mul (by omega)
      rw [ih (x / 128) rest (i + 1) (2 ^ s * (x % 128) + acc) (s + 7) hx2 hacc2
        (by omega) (by omega)]
      have harith : 2 ^ s * (x % 128) + acc + x / 128 * 2 ^ (s + 7) = acc + x * 2 ^ s := by
        rw [e1]
        have hq : x = 128 * (x / 128) + x % 128 := (Nat.div_add_mod x 128).symm
        conv_rhs => rw [hq]
        ring
      rw [Prod.mk.injEq]
      refine ⟨harith, ?_⟩
      congr 1
      omega

theorem uvarint_putUvarintBytes (x : Nat) (rest : List Nat) (hx : x < 2 ^ 63)
    (hlen : (putUvarintBytes x).length ≤ 9) :
    uvarint (putUvarintBytes x ++ rest) = (x, Int.ofNat (putUvarintBytes x).length) := by
  simp only [putUvarintBytes] at hlen ⊢
  have hx70 : x < 2 ^ (7 * (9 + 1)) := by
    have h2 : (2 : Nat) ^ 63 ≤ 2 ^ (7 * (9 + 1)) := Nat.pow_le_pow_right (by omega) (by omega)
    omega
  have h := uvarintLoop_putUvarintLoop 9 x rest 0 0 0 hx70 (by omega) (by omega) (by omega)
  simpa [uvarint] using h

theorem putUvarintBytes_length_le_three (x : Nat) (hx : x ≤ DOC_MAX_ROOM) :
    (putUvarintBytes x).length ≤ 3 := by
  simp only [putUvarintBytes]
  apply putUvarintLoop_length_le 9 x 3 (by omega) (by omega)
  have h21 : (2 : Nat) ^ (7 * 3) = 2097152 := by norm_num
  simp only [DOC_MAX_ROOM] at hx
  omega

/-! ## Growth lemmas -/

theorem CheckSizeAndEnsure_UsedSize (col : ColFile) (n : Nat) :
    (CheckSizeAndEnsure col n).UsedSize = col.UsedSize := by
  rw [CheckSizeAndEnsure]
  split <;> rfl

theorem CheckSizeAndEnsure_Name (col : ColFile) (n : Nat) :
    (CheckSizeAndEnsure col n).Name = col.Name := by
  rw [CheckSizeAndEnsure]
  split <;> rfl

theorem CheckSizeAndEnsure_size_le (col : ColFile) (n : Nat) :
    col.Size ≤ (CheckSizeAndEnsure col n).Size := by
  rw [CheckSizeAndEnsure]
  split
  · exact Nat.le_refl _
  · simp only
    omega

theorem CheckSizeAndEnsure_spec (col : ColFile) (n : Nat) :
    col.UsedSize + n ≤ (CheckSizeAndEnsure col n).Size := by
  rw [CheckSizeAndEnsure]
  split
  · assumption
  · simp only [COL_FILE_SIZE]
    omega

theorem CheckSizeAndEnsure_Buf (col : ColFile) (n i : Nat) (h : i < col.Size) :
    (CheckSizeAndEnsure col n).Buf i = col.Buf i := by
  rw [CheckSizeAndEnsure]
  split
  · rfl
  · simp only
    rw [if_pos h]

/-! ## Read characterization -/

theorem read_char (col : ColFile) (id : Nat) :
    Read col id =
      if id + DOC_HEADER_SIZE < col.UsedSize ∧ col.Buf id = DOC_VALID ∧
         decodedRoom col id ≤ DOC_MAX_ROOM ∧
         id + DOC_HEADER_SIZE + decodedRoom col id < col.Size
      then some (readBytes col.Buf (id + DOC_HEADER_SIZE) (decodedRoom col id))
      else none := by
  rw [Read]
  simp only [DOC_HEADER_SIZE, DOC_VALID, gt_iff_lt, ge_iff_le, ne_eq]
  split_ifs <;> first
    | rfl
    | (exfalso; omega)

theorem read_none_of_invalid (col : ColFile) (id : Nat)
    (h : col.Buf id ≠ DOC_VALID) : Read col id = none := by
  rw [read_char, if_neg]
  intro hc
  exact h hc.2.1

/-! ## Slot-layout lemmas: the effect of the header/data/padding writes -/

theorem header_valid (b : Nat → Nat) (id room len : Nat) (data : List Nat) :
    fillRange
      (writeBytes (writeBytes (writeBytes b id [DOC_VALID]) (id + 1) (putUvarintBytes room))
        (id + DOC_HEADER_SIZE) data)
      (id + DOC_HEADER_SIZE + len) (id + DOC_HEADER_SIZE + room) id = DOC_VALID := by
  rw [fillRange_eq_of_lt _ _ _ _ (by simp only [DOC_HEADER_SIZE]; omega)]
  rw [writeBytes_eq_of_lt _ _ _ _ (by simp only [DOC_HEADER_SIZE]; omega)]
  rw [writeBytes_eq_of_lt _ _ _ _ (by omega)]
  simp [writeBytes]

theorem header_decode (b : Nat → Nat) (id room len : Nat) (data : List Nat)
    (hroom : room ≤ DOC_MAX_ROOM) :
    (uvarint (readBytes
      (fillRange
        (writeBytes (writeBytes (writeBytes b id [DOC_VALID]) (id + 1) (putUvarintBytes room))
          (id + DOC_HEADER_SIZE) data)
        (id + DOC_HEADER_SIZE + len) (id + DOC_HEADER_SIZE + room))
      (id + 1) 10)).1 = room := by
  have hL : (putUvarintBytes room).length ≤ 3 := putUvarintBytes_length_le_three room hroom
  rw [readBytes_congr _
    (writeBytes (writeBytes b id [DOC_VALID]) (id + 1) (putUvarintBytes room)) (id + 1) 10
    (fun k hk => by
      rw [fillRange_eq_of_lt _ _ _ _ (by simp only [DOC_HEADER_SIZE]; omega)]
      rw [writeBytes_eq_of_lt _ _ _ _ (by simp only [DOC_HEADER_SIZE]; omega)])]
  rw [show (10 : Nat) = (putUvarintBytes room).length + (10 - (putUvarintBytes room).length)
    from (by omega)]
  rw [readBytes_add]
  rw [readBytes_writeBytes]
  have h63 : DOC_MAX_ROOM < 2 ^ 63 := by norm_num [DOC_MAX_ROOM]
  rw [uvarint_putUvarintBytes room _ (by omega) (by omega)]

theorem payload_read (b : Nat → Nat) (id room : Nat) (data : List Nat)
    (hlr : data.length ≤ room) :
    readBytes
      (fillRange (writeBytes b (id + DOC_HEADER_SIZE) data)
        (id + DOC_HEADER_SIZE + data.length) (id + DOC_HEADER_SIZE + room))
      (id + DOC_HEADER_SIZE) room
      = data ++ List.replicate (room - data.length) PADDING_BYTE := by
  rw [show room = data.length + (room - data.length) from (by omega)]
  rw [readBytes_add]
  congr 1
  · rw [readBytes_congr _ (writeBytes b (id + DOC_HEADER_SIZE) data) _ _
      (fun k hk => fillRange_eq_of_lt _ _ _ _ (by omega))]
    exact readBytes_writeBytes b _ data
  · rw [show data.length + (room - data.length) - data.length = room - data.length
      from (by omega)]
    apply readBytes_const
    intro k hk
    apply fillRange_eq_of_mem
    · omega
    · omega

/-! ## Facts about the insert success path -/

theorem insertLayout_Name (col : ColFile) (data : List Nat) :
    (insertLayout col data).Name = col.Name := by
  simp only [insertLayout]
  split
  · rfl
  · exact CheckSizeAndEnsure_Name col _

theorem insertLayout_UsedSize (col : ColFile) (data : List Nat) :
    (insertLayout col data).UsedSize =
      col.UsedSize + DOC_HEADER_SIZE + (data.length + data.length) := by
  simp only [insertLayout]

theorem insertLayout_Size (col : ColFile) (data : List Nat) :
    col.UsedSize + DOC_HEADER_SIZE + (data.length + data.length) ≤
      (insertLayout col data).Size := by
  simp only [insertLayout]
  split
  · next hck =>
    simp only [CheckSize, decide_eq_true_eq] at hck
    omega
  · have := CheckSizeAndEnsure_spec col (DOC_HEADER_SIZE + (data.length + data.length))
    omega

theorem insertLayout_Size_mono (col : ColFile) (data : List Nat) :
    col.Size ≤ (insertLayout col data).Size := by
  simp only [insertLayout]
  split
  · exact Nat.le_refl _
  · exact CheckSizeAndEnsure_size_le col _

theorem insertLayout_Buf_low (col : ColFile) (data : List Nat) (i : Nat)
    (h1 : i < col.UsedSize) (h2 : i < col.Size) :
    (insertLayout col data).Buf i = col.Buf i := by
  simp only [insertLayout]
  rw [fillRange_eq_of_lt _ _ _ _ (by simp only [DOC_HEADER_SIZE]; omega)]
  rw [writeBytes_eq_of_lt _ _ _ _ (by simp only [DOC_HEADER_SIZE]; omega)]
  rw [writeBytes_eq_of_lt _ _ _ _ (by omega)]
  rw [writeBytes_eq_of_lt _ _ _ _ h1]
  split
  · rfl
  · exact CheckSizeAndEnsure_Buf col _ i h2

theorem insertLayout_Buf_valid (col : ColFile) (data : List Nat) :
    (insertLayout col data).Buf col.UsedSize = DOC_VALID := by
  simp only [insertLayout]
  exact header_valid _ _ _ _ data

theorem insertLayout_decodedRoom (col : ColFile) (data : List Nat)
    (h : data.length + data.length ≤ DOC_MAX_ROOM) :
    decodedRoom (insertLayout col data) col.UsedSize = data.length + data.length := by
  simp only [decodedRoom, insertLayout]
  exact header_decode _ _ _ _ data h

theorem insertLayout_payload (col : ColFile) (data : List Nat) :
    readBytes (insertLayout col data).Buf (col.UsedSize + DOC_HEADER_SIZE)
        (data.length + data.length)
      = data ++ List.replicate data.length PADDING_BYTE := by
  simp only [insertLayout]
  have h := payload_read
    (writeBytes (writeBytes
        (if CheckSize col (DOC_HEADER_SIZE + (data.length + data.length)) then col
         else CheckSizeAndEnsure col (DOC_HEADER_SIZE + (data.length + data.length))).Buf
        col.UsedSize [DOC_VALID])
      (col.UsedSize + 1) (putUvarintBytes (data.length + data.length)))
    col.UsedSize (data.length + data.length) data (by omega)
  rw [show data.length + data.length - data.length = data.length from (by omega)] at h
  exact h

theorem Insert_eq_success (col : ColFile) (data : List Nat)
    (h : data.length + data.length ≤ DOC_MAX_ROOM) :
    Insert col data = (insertLayout col data, col.UsedSize, none) := by
  rw [Insert, if_neg (show ¬ data.length + data.length > DOC_MAX_ROOM from by omega)]

theorem Read_insertLayout (col : ColFile) (data : List Nat)
    (h : data.length + data.length ≤ DOC_MAX_ROOM) :
    Read (insertLayout col data) col.UsedSize =
      if 0 < data.length ∧
         col.UsedSize + DOC_HEADER_SIZE + (data.length + data.length) <
           (insertLayout col data).Size
      then some (data ++ List.replicate data.length PADDING_BYTE)
      else none := by
  rw [read_char, insertLayout_decodedRoom col data h, insertLayout_UsedSize,
    insertLayout_Buf_valid]
  by_cases h4 : col.UsedSize + DOC_HEADER_SIZE + (data.length + data.length) <
      (insertLayout col data).Size
  · by_cases hp : 0 < data.length
    · rw [if_pos ⟨by omega, rfl, by omega, h4⟩, if_pos ⟨hp, h4⟩, insertLayout_payload]
    · rw [if_neg (fun hc => hp (by omega)), if_neg (fun hc => hp hc.1)]
  · rw [if_neg (fun hc => h4 hc.2.2.2), if_neg (fun hc => h4 hc.2)]

/-! ## Delete lemmas -/

theorem Delete_UsedSize (col : ColFile) (id : Nat) :
    (Delete col id).UsedSize = col.UsedSize := by
  rw [Delete]
  split_ifs <;> rfl

theorem Delete_Size (col : ColFile) (id : Nat) :
    (Delete col id).Size = col.Size := by
  rw [Delete]
  split_ifs <;> rfl

theorem Delete_Name (col : ColFile) (id : Nat) :
    (Delete col id).Name = col.Name := by
  rw [Delete]
  split_ifs <;> rfl

theorem Delete_Buf_valid (col : ColFile) (id : Nat)
    (hb : ¬(col.UsedSize < DOC_HEADER_SIZE ∨ id ≥ col.UsedSize - DOC_HEADER_SIZE))
    (hv : col.Buf id = DOC_VALID) :
    (Delete col id).Buf id = DOC_INVALID := by
  rw [Delete, if_neg hb, if_pos hv]
  simp [writeBytes]

theorem Delete_Buf_other (col : ColFile) (id i : Nat) (h : i ≠ id) :
    (Delete col id).Buf i = col.Buf i := by
  rw [Delete]
  split_ifs <;> try rfl
  show writeBytes col.Buf id [DOC_INVALID] i = col.Buf i
  rw [writeBytes]
  simp only [List.length_cons, List.length_nil]
  rw [if_neg (by omega)]

theorem Read_Delete (col : ColFile) (id : Nat) : Read (Delete col id) id = none := by
  by_cases hb : col.UsedSize < DOC_HEADER_SIZE ∨ id ≥ col.UsedSize - DOC_HEADER_SIZE
  · rw [Delete, if_pos hb, read_char, if_neg]
    intro hc
    simp only [DOC_HEADER_SIZE] at hb hc
    omega
  · by_cases hv : col.Buf id = DOC_VALID
    · apply read_none_of_invalid
      rw [Delete_Buf_valid col id hb hv]
      simp [DOC_INVALID, DOC_VALID]
    · rw [Delete, if_neg hb, if_neg hv]
      exact read_none_of_invalid col id hv

theorem Delete_idem (col : ColFile) (id : Nat) :
    Delete (Delete col id) id = Delete col id := by
  by_cases hb : col.UsedSize < DOC_HEADER_SIZE ∨ id ≥ col.UsedSize - DOC_HEADER_SIZE
  · have h1 : Delete col id = col := by rw [Delete, if_pos hb]
    rw [h1, h1]
  · by_cases hv : col.Buf id = DOC_VALID
    · have h1 : Delete col id = { col with Buf := writeBytes col.Buf id [DOC_INVALID] } := by
        rw [Delete, if_neg hb, if_pos hv]
      rw [h1]
      rw [Delete, if_neg (by simpa using hb), if_neg]
      show ¬ writeBytes col.Buf id [DOC_INVALID] id = DOC_VALID
      simp [writeBytes, DOC_INVALID, DOC_VALID]
    · have h1 : Delete col id = col := by rw [Delete, if_neg hb, if_neg hv]
      rw [h1, h1]

theorem Delete_noop (col : ColFile) (id : Nat)
    (h : (col.UsedSize < DOC_HEADER_SIZE ∨ id ≥ col.UsedSize - DOC_HEADER_SIZE) ∨
      col.Buf id ≠ DOC_VALID) :
    Delete col id = col := by
  rcases h with hb | hv
  · rw [Delete, if_pos hb]
  · by_cases hb : col.UsedSize < DOC_HEADER_SIZE ∨ id ≥ col.UsedSize - DOC_HEADER_SIZE
    · rw [Delete, if_pos hb]
    · rw [Delete, if_neg hb, if_neg hv]

/-! ## Update lemmas -/

theorem updateInPlace_UsedSize (col : ColFile) (id : Nat) (data : List Nat) (room : Nat) :
    (updateInPlace col id data room).UsedSize = col.UsedSize := rfl

theorem updateInPlace_Size (col : ColFile) (id : Nat) (data : List Nat) (room : Nat) :
    (updateInPlace col id data room).Size = col.Size := rfl

theorem updateInPlace_Name (col : ColFile) (id : Nat) (data : List Nat) (room : Nat) :
    (updateInPlace col id data room).Name = col.Name := rfl

theorem updateInPlace_Buf_id (col : ColFile) (id : Nat) (data : List Nat) (room : Nat) :
    (updateInPlace col id data room).Buf id = col.Buf id := by
  simp only [updateInPlace]
  rw [fillRange_eq_of_lt _ _ _ _ (by simp only [DOC_HEADER_SIZE]; omega)]
  rw [writeBytes_eq_of_lt _ _ _ _ (by simp only [DOC_HEADER_SIZE]; omega)]

theorem updateInPlace_decodedRoom (col : ColFile) (id : Nat) (data : List Nat) (room : Nat) :
    decodedRoom (updateInPlace col id data room) id = decodedRoom col id := by
  simp only [decodedRoom, updateInPlace]
  rw [readBytes_congr _ col.Buf _ _ (fun k hk => by
    rw [fillRange_eq_of_lt _ _ _ _ (by simp only [DOC_HEADER_SIZE]; omega),
      writeBytes_eq_of_lt _ _ _ _ (by simp only [DOC_HEADER_SIZE]; omega)])]

theorem updateInPlace_payload (col : ColFile) (id : Nat) (data : List Nat) (room : Nat)
    (h : data.length ≤ room) :
    readBytes (updateInPlace col id data room).Buf (id + DOC_HEADER_SIZE) room =
      data ++ List.replicate (room - data.length) PADDING_BYTE := by
  simp only [updateInPlace]
  exact payload_read col.Buf id room data h

theorem Update_eq_inplace (col : ColFile) (id : Nat) (data : List Nat)
    (hlen : data.length ≤ DOC_MAX_ROOM)
    (hb : ¬(col.UsedSize < DOC_HEADER_SIZE ∨ id ≥ col.UsedSize - DOC_HEADER_SIZE))
    (hv : col.Buf id = DOC_VALID)
    (hr : ¬(decodedRoom col id > DOC_MAX_ROOM ∨ id + decodedRoom col id ≥ col.UsedSize))
    (h5 : data.length ≤ decodedRoom col id) :
    Update col id data = (updateInPlace col id data (decodedRoom col id), id, none) := by
  rw [Update, if_neg (show ¬ data.length > DOC_MAX_ROOM from by omega), if_neg hb,
    if_neg (show ¬ col.Buf id ≠ DOC_VALID from fun hc => hc hv), if_neg hr, if_pos h5]

theorem Update_eq_relocate (col : ColFile) (id : Nat) (data : List Nat)
    (hlen : data.length ≤ DOC_MAX_ROOM)
    (hb : ¬(col.UsedSize < DOC_HEADER_SIZE ∨ id ≥ col.UsedSize - DOC_HEADER_SIZE))
    (hv : col.Buf id = DOC_VALID)
    (hr : ¬(decodedRoom col id > DOC_MAX_ROOM ∨ id + decodedRoom col id ≥ col.UsedSize))
    (h5 : decodedRoom col id < data.length) :
    Update col id data = Insert (Delete col id) data := by
  rw [Update, if_neg (show ¬ data.length > DOC_MAX_ROOM from by omega), if_neg hb,
    if_neg (show ¬ col.Buf id ≠ DOC_VALID from fun hc => hc hv), if_neg hr,
    if_neg (show ¬ data.length ≤ decodedRoom col id from by omega)]

theorem Read_updateInPlace (col : ColFile) (id : Nat) (data : List Nat)
    (hb : ¬(col.UsedSize < DOC_HEADER_SIZE ∨ id ≥ col.UsedSize - DOC_HEADER_SIZE))
    (hv : col.Buf id = DOC_VALID)
    (hr : ¬(decodedRoom col id > DOC_MAX_ROOM ∨ id + decodedRoom col id ≥ col.UsedSize))
    (h5 : data.length ≤ decodedRoom col id) :
    Read (updateInPlace col id data (decodedRoom col id)) id =
      if id + DOC_HEADER_SIZE + decodedRoom col id < col.Size
      then some (data ++ List.replicate (decodedRoom col id - data.length) PADDING_BYTE)
      else none := by
  rw [read_char, updateInPlace_decodedRoom, updateInPlace_UsedSize, updateInPlace_Buf_id,
    updateInPlace_Size]
  by_cases h4 : id + DOC_HEADER_SIZE + decodedRoom col id < col.Size
  · rw [if_pos ⟨by simp only [DOC_HEADER_SIZE] at hb ⊢; omega, hv, by omega, h4⟩,
      updateInPlace_payload col id data _ h5, if_pos h4]
  · rw [if_neg (fun hc => h4 hc.2.2.2), if_neg h4]

/-! ## UsedSize monotonicity -/

theorem Insert_UsedSize_mono (col : ColFile) (data : List Nat) :
    col.UsedSize ≤ (Insert col data).1.UsedSize := by
  rw [Insert]
  split
  · exact Nat.le_refl _
  · show col.UsedSize ≤ (insertLayout col data).UsedSize
    rw [insertLayout_UsedSize]
    omega

theorem Delete_UsedSize_mono (col : ColFile) (id : Nat) :
    col.UsedSize ≤ (Delete col id).UsedSize := by
  rw [Delete_UsedSize]

theorem Update_UsedSize_mono (col : ColFile) (id : Nat) (data : List Nat) :
    col.UsedSize ≤ (Update col id data).1.UsedSize := by
  simp only [Update]
  split_ifs
  · exact Nat.le_refl _
  · exact Nat.le_refl _
  · exact Nat.le_refl _
  · exact Nat.le_refl _
  · exact Nat.le_refl _
  · have h1 := Insert_UsedSize_mono (Delete col id) data
    rw [Delete_UsedSize] at h1
    exact h1

theorem applyOp_UsedSize_mono (col : ColFile) (op : Op) :
    col.UsedSize ≤ (applyOp col op).UsedSize := by
  cases op with
  | ins d => exact Insert_UsedSize_mono col d
  | upd i d => exact Update_UsedSize_mono col i d
  | del i => exact Delete_UsedSize_mono col i

theorem runOps_UsedSize_mono (col : ColFile) (ops : List Op) :
    col.UsedSize ≤ (runOps col ops).UsedSize := by
  induction ops generalizing col with
  | nil => exact Nat.le_refl _
  | cons o rest ih =>
    exact Nat.le_trans (applyOp_UsedSize_mono col o) (ih (applyOp col o))

/-! ## Scan and resynchronization lemmas -/

theorem endOf_ge (rooms : List Nat) : ∀ addr, addr ≤ endOf addr rooms := by
  induction rooms with
  | nil => intro addr; exact Nat.le_refl _
  | cons r rest ih =>
    intro addr
    calc addr ≤ addr + DOC_HEADER_SIZE + r := by omega
    _ ≤ endOf (addr + DOC_HEADER_SIZE + r) rest := ih _

theorem resyncLoop_ge (fuel : Nat) :
    ∀ (col : ColFile) (a : Nat), a ≤ resyncLoop fuel col a := by
  induction fuel with
  | zero => intro col a; exact Nat.le_refl _
  | succ n ih =>
    intro col a
    rw [resyncLoop]
    split
    · exact Nat.le_trans (by omega) (ih col (a + 1))
    · exact Nat.le_refl _

theorem resync_ge (col : ColFile) (a : Nat) : a ≤ resync col a :=
  resyncLoop_ge _ col a

theorem resyncLoop_eq (col : ColFile) (c1 : Nat)
    (hstop : col.Buf c1 = DOC_VALID ∨ col.Buf c1 = DOC_INVALID)
    (hbound : c1 ≤ col.UsedSize - DOC_HEADER_SIZE) :
    ∀ fuel a, a ≤ c1 → c1 - a < fuel →
      (∀ i, a ≤ i → i < c1 → col.Buf i ≠ DOC_VALID ∧ col.Buf i ≠ DOC_INVALID) →
      resyncLoop fuel col a = c1 := by
  intro fuel
  induction fuel with
  | zero =>
    intro a ha hf _
    omega
  | succ n ih =>
    intro a ha hf hmid
    rcases Nat.eq_or_lt_of_le ha with hac | hlt
    · subst hac
      rw [resyncLoop, if_neg]
      intro hc
      rcases hstop with h | h
      · exact hc.1 h
      · exact hc.2.1 h
    · rw [resyncLoop, if_pos ⟨(hmid a (Nat.le_refl a) hlt).1, (hmid a (Nat.le_refl a) hlt).2,
        by omega⟩]
      exact ih (a + 1) (by omega) (by omega) (fun i h1 h2 => hmid i (by omega) h2)

theorem resync_eq (col : ColFile) (c1 a : Nat)
    (hstop : col.Buf c1 = DOC_VALID ∨ col.Buf c1 = DOC_INVALID)
    (hbound : c1 ≤ col.UsedSize - DOC_HEADER_SIZE)
    (ha : a ≤ c1)
    (hmid : ∀ i, a ≤ i → i < c1 → col.Buf i ≠ DOC_VALID ∧ col.Buf i ≠ DOC_INVALID) :
    resync col a = c1 := by
  rw [resync]
  exact resyncLoop_eq col c1 hstop hbound _ a ha (by omega) hmid

theorem forAllLoopF_stop (fuel : Nat) (col : ColFile) (f : Nat → List Nat → Bool)
    (addr : Nat) (h : col.UsedSize - DOC_HEADER_SIZE ≤ addr) :
    forAllLoopF fuel col f addr = ([], []) := by
  cases fuel with
  | zero => rfl
  | succ n =>
    rw [forAllLoopF, if_pos (Or.inr h)]

theorem forAllLoopF_irrel (col : ColFile) (f : Nat → List Nat → Bool) :
    ∀ (fuel1 fuel2 addr : Nat), col.UsedSize < addr + fuel1 → col.UsedSize < addr + fuel2 →
      forAllLoopF fuel1 col f addr = forAllLoopF fuel2 col f addr := by
  intro fuel1
  induction fuel1 with
  | zero =>
    intro fuel2 addr h1 h2
    rw [forAllLoopF_stop 0 col f addr (by omega), forAllLoopF_stop fuel2 col f addr (by omega)]
  | succ n ih =>
    intro fuel2 addr h1 h2
    cases fuel2 with
    | zero =>
      rw [forAllLoopF_stop (n + 1) col f addr (by omega),
        forAllLoopF_stop 0 col f addr (by omega)]
    | succ m =>
      rw [forAllLoopF, forAllLoopF]
      split
      · rfl
      · next hg =>
        have hlt : addr < col.UsedSize := by
          simp only [DOC_HEADER_SIZE] at hg
          omega
        simp only []
        split
        · have hr1 := resync_ge col (addr + 1)
          rw [ih m (resync col (addr + 1)) (by omega) (by omega)]
        · split
          · split
            · rw [ih m (addr + DOC_HEADER_SIZE + decodedRoom col addr)
                (by simp only [DOC_HEADER_SIZE]; omega) (by simp only [DOC_HEADER_SIZE]; omega)]
            · rfl
          · rw [ih m (addr + DOC_HEADER_SIZE + decodedRoom col addr)
              (by simp only [DOC_HEADER_SIZE]; omega) (by simp only [DOC_HEADER_SIZE]; omega)]

theorem forAllLoopF_slots (col : ColFile) (f : Nat → List Nat → Bool)
    (hf : ∀ a d, f a d = true) :
    ∀ (rooms : List Nat) (fuel addr : Nat), slotsAt col addr rooms →
      endOf addr rooms ≤ col.UsedSize → col.UsedSize < addr + fuel →
      forAllLoopF fuel col f addr =
        (docsOf col addr rooms ++ (forAllLoopF fuel col f (endOf addr rooms)).1,
          (forAllLoopF fuel col f (endOf addr rooms)).2) := by
  intro rooms
  induction rooms with
  | nil =>
    intro fuel addr _ _ _
    simp [docsOf, endOf]
  | cons r rest ih =>
    intro fuel addr hs hend hfuel
    obtain ⟨hv, hroom, hmax, hpos, hrest⟩ := hs
    have hend1 : addr + DOC_HEADER_SIZE + r ≤ endOf (addr + DOC_HEADER_SIZE + r) rest :=
      endOf_ge rest _
    have hend2 : endOf addr (r :: rest) = endOf (addr + DOC_HEADER_SIZE + r) rest := rfl
    rw [hend2] at hend ⊢
    rcases fuel with _ | n
    · exfalso
      simp only [DOC_HEADER_SIZE] at *
      omega
    have hguard : ¬(col.UsedSize < DOC_HEADER_SIZE ∨
        addr ≥ col.UsedSize - DOC_HEADER_SIZE) := by
      simp only [DOC_HEADER_SIZE] at *
      omega
    rw [forAllLoopF, if_neg hguard]
    rw [if_neg (by
      intro hc
      rcases hc with hc | hc
      · exact hc.1 hv
      · rw [hroom] at hc
        omega)]
    rw [if_pos hv, hroom]
    simp only [hf, if_true]
    rw [forAllLoopF_irrel col f n (n + 1) (addr + DOC_HEADER_SIZE + r)
      (by simp only [DOC_HEADER_SIZE] at *; omega)
      (by simp only [DOC_HEADER_SIZE] at *; omega)]
    rw [ih (n + 1) (addr + DOC_HEADER_SIZE + r) hrest hend
      (by simp only [DOC_HEADER_SIZE] at *; omega)]
    simp [docsOf]

/-- C6: corruption resynchronization, amended.  For a store laid out as
a run of valid documents, then a corrupted slot whose header fails the
soundness check, then further valid documents, and in which no byte
strictly inside the corrupted region equals `DOC_VALID` or
`DOC_INVALID`, `ForAll` (with a visitor that always continues) visits
exactly the documents before and after the corrupted region, in their
original order, and reports exactly one corruption signal, at the
corrupted slot's offset; the recovery cursor advances byte by byte
until the next `DOC_VALID`/`DOC_INVALID` byte.  (The extra no-stray-
tag-byte condition is forced by the counterexample
`C6_counterexample`.) -/
theorem C6_corruption_resync
    (col : ColFile) (f : Nat → List Nat → Bool) (hf : ∀ a d, f a d = true)
    (pre post : List Nat) (c0 c1 : Nat)
    (hpre : slotsAt col 0 pre) (hpre_end : endOf 0 pre = c0)
    (hcorrupt : (col.Buf c0 ≠ DOC_VALID ∧ col.Buf c0 ≠ DOC_INVALID) ∨
      decodedRoom col c0 > DOC_MAX_ROOM)
    (hmid : ∀ i, c0 < i → i < c1 → col.Buf i ≠ DOC_VALID ∧ col.Buf i ≠ DOC_INVALID)
    (hlt : c0 < c1)
    (hpost : slotsAt col c1 post) (hpost_end : endOf c1 post = col.UsedSize)
    (hpost_ne : post ≠ []) :
    ForAll col f = (docsOf col 0 pre ++ docsOf col c1 post, [c0]) := by
  rcases post with _ | ⟨r, rest⟩
  · exact absurd rfl hpost_ne
  obtain ⟨hv1, hroom1, hmax1, hpos1, hrest1⟩ := hpost
  have hpe : endOf c1 (r :: rest) = endOf (c1 + DOC_HEADER_SIZE + r) rest := rfl
  have hc1b : c1 + DOC_HEADER_SIZE + r ≤ col.UsedSize := by
    rw [hpe] at hpost_end
    have := endOf_ge rest (c1 + DOC_HEADER_SIZE + r)
    omega
  have hc1lt : c1 < col.UsedSize - DOC_HEADER_SIZE := by
    simp only [DOC_HEADER_SIZE] at *
    omega
  rw [ForAll, forAllLoopF_slots col f hf pre (col.UsedSize + 1) 0 hpre (by omega) (by omega)]
  rw [hpre_end]
  rw [forAllLoopF, if_neg (by
    simp only [DOC_HEADER_SIZE] at *
    omega)]
  rw [if_pos hcorrupt]
  have hsync : resync col (c0 + 1) = c1 :=
    resync_eq col c1 (c0 + 1) (Or.inl hv1) (by omega) (by omega)
      (fun i h1 h2 => hmid i (by omega) h2)
  rw [hsync]
  rw [forAllLoopF_slots col f hf (r :: rest) col.UsedSize c1
    ⟨hv1, hroom1, hmax1, hpos1, hrest1⟩ (by rw [hpost_end])
    (by simp only [DOC_HEADER_SIZE] at *; omega)]
  rw [hpost_end, forAllLoopF_stop col.UsedSize col f col.UsedSize (by omega)]
  simp


/-! ## Claim theorems -/

/-- C1 counterexample: the claim `Read(Insert(data)) == data` fails on
the one-byte document `[65]` inserted into a fresh store — `Read`
returns the whole room-sized payload `[65, 32]` (data plus padding),
not `[65]`. -/
theorem C1_counterexample :
    Read (Insert fresh [65]).1 (Insert fresh [65]).2.1 ≠ some [65] := by
  decide

/-- C1, amended: inserting `data` with `2·len(data) ≤ DOC_MAX_ROOM`
into any store succeeds, and reading the returned id yields `data`
followed by `len(data)` padding bytes — provided `data` is nonempty
and the new slot ends strictly below the allocated size; an empty
document or a slot ending exactly at the allocated size reads back as
absent. -/
theorem C1_round_trip (col : ColFile) (data : List Nat)
    (h : data.length + data.length ≤ DOC_MAX_ROOM) :
    (Insert col data).2.2 = none ∧
    (Insert col data).2.1 = col.UsedSize ∧
    Read (Insert col data).1 (Insert col data).2.1 =
      (if 0 < data.length ∧
          col.UsedSize + DOC_HEADER_SIZE + (data.length + data.length) <
            (Insert col data).1.Size
       then some (data ++ List.replicate data.length PADDING_BYTE)
       else none) := by
  rw [Insert_eq_success col data h]
  exact ⟨rfl, rfl, Read_insertLayout col data h⟩

/-- C1 witness: inserting `[65]` into a fresh store and reading the
returned id yields `[65, 32]`. -/
theorem C1_witness :
    ([65] : List Nat).length + ([65] : List Nat).length ≤ DOC_MAX_ROOM ∧
    Read (Insert fresh [65]).1 (Insert fresh [65]).2.1 = some [65, 32] := by
  refine ⟨by decide, ?_⟩
  rw [(C1_round_trip fresh [65] (by decide)).2.2]
  decide

/-- C2 counterexample: a store whose single valid slot ends exactly at
the allocated size satisfies every condition of the claim (the payload
end `13` does not exceed `Size = 13`), yet `Read` returns absent. -/
theorem C2_counterexample :
    (0 + DOC_HEADER_SIZE < S2x.UsedSize ∧ S2x.Buf 0 = DOC_VALID ∧
      decodedRoom S2x 0 ≤ DOC_MAX_ROOM ∧
      0 + DOC_HEADER_SIZE + decodedRoom S2x 0 ≤ S2x.Size) ∧
    Read S2x 0 = none := by
  decide

/-- C2, amended: `Read col id` returns the payload bytes exactly when
`id + DOC_HEADER_SIZE` lies strictly before `UsedSize`, the validity
byte is `DOC_VALID`, the decoded room is at most `DOC_MAX_ROOM`, and
the payload end `id + DOC_HEADER_SIZE + room` is *strictly below* the
allocated size (a payload ending exactly at the allocated size also
reads as absent); under any violation the result is absent, never an
error, and `Read` is a pure function of the store. -/
theorem C2_read_contract (col : ColFile) (id : Nat) :
    Read col id =
      (if id + DOC_HEADER_SIZE < col.UsedSize ∧ col.Buf id = DOC_VALID ∧
          decodedRoom col id ≤ DOC_MAX_ROOM ∧
          id + DOC_HEADER_SIZE + decodedRoom col id < col.Size
       then some (readBytes col.Buf (id + DOC_HEADER_SIZE) (decodedRoom col id))
       else none) :=
  read_char col id

/-- C3 counterexample: on the store `S3x`, `Read 0` succeeds but
`Update 0 [5]` reports "document does not exist" — the two operations'
existence checks are not identical (`Update` compares `id + room`
against `UsedSize`, `Read` compares `id + DOC_HEADER_SIZE + room`
against `Size`). -/
theorem C3_counterexample :
    (Read S3x 0).isSome = true ∧
    (Update S3x 0 [5]).2.2 = some (Err.docNotExist 0 "t") := by
  decide

/-- C3, amended: for `len(data) ≤ DOC_MAX_ROOM`, `Update` reports
"document does not exist" exactly when the bounds check or the
validity-byte check fails (these two coincide with `Read`'s), or the
decoded room exceeds `DOC_MAX_ROOM`, or `id + room` reaches
`UsedSize` — the last condition differing from `Read`'s payload-end
check `id + DOC_HEADER_SIZE + room < Size`. -/
theorem C3_update_existence (col : ColFile) (id : Nat) (data : List Nat)
    (hlen : data.length ≤ DOC_MAX_ROOM) :
    ((Update col id data).2.2 = some (Err.docNotExist id col.Name) ↔
      ¬(id + DOC_HEADER_SIZE < col.UsedSize ∧ col.Buf id = DOC_VALID ∧
        decodedRoom col id ≤ DOC_MAX_ROOM ∧
        id + decodedRoom col id < col.UsedSize)) := by
  simp only [Update]
  split_ifs with h1 h2 h3 h4 h5
  · exact absurd h1 (by omega)
  · refine iff_of_true rfl ?_
    intro hc
    simp only [DOC_HEADER_SIZE] at h2 hc
    omega
  · refine iff_of_true rfl ?_
    intro hc
    exact h3 hc.2.1
  · refine iff_of_true rfl ?_
    intro hc
    rcases h4 with h | h
    · exact absurd hc.2.2.1 (by omega)
    · exact absurd hc.2.2.2 (by omega)
  · refine iff_of_false (by simp) ?_
    push_neg at h4
    intro hc
    exact hc ⟨by simp only [DOC_HEADER_SIZE] at h2 ⊢; omega, not_not.mp h3,
      by omega, h4.2⟩
  · refine iff_of_false ?_ ?_
    · rw [Insert]
      split_ifs
      · simp
      · simp
    · push_neg at h4
      intro hc
      exact hc ⟨by simp only [DOC_HEADER_SIZE] at h2 ⊢; omega, not_not.mp h3,
        by omega, h4.2⟩

/-- C3 witness: the amended characterization instantiated on `S3x`. -/
theorem C3_witness :
    ([5] : List Nat).length ≤ DOC_MAX_ROOM ∧
    ((Update S3x 0 [5]).2.2 = some (Err.docNotExist 0 S3x.Name) ↔
      ¬(0 + DOC_HEADER_SIZE < S3x.UsedSize ∧ S3x.Buf 0 = DOC_VALID ∧
        decodedRoom S3x 0 ≤ DOC_MAX_ROOM ∧
        0 + decodedRoom S3x 0 < S3x.UsedSize)) :=
  ⟨by decide, C3_update_existence S3x 0 [5] (by decide)⟩

/-- C4 counterexample: after inserting `[65]` (slot room 2), updating
in place with `[66]` keeps the same id but `Read` returns `[66, 32]`
(the room-sized payload), not `[66]` as the claim states. -/
theorem C4_counterexample :
    (Update (Insert fresh [65]).1 0 [66]).2.1 = 0 ∧
    Read (Update (Insert fresh [65]).1 0 [66]).1 0 ≠ some [66] := by
  decide

/-- C4, amended: for a valid slot at `id` (the checks `Update` itself
performs) and `len(newData) ≤ room`, `Update` succeeds in place: it
returns the same `id`, leaves the slot's room unchanged, and a
subsequent `Read id` yields `newData` followed by `room - len(newData)`
padding bytes — provided the slot end lies strictly below the
allocated size (otherwise the read is absent). -/
theorem C4_update_in_place (col : ColFile) (id : Nat) (data : List Nat)
    (hb : ¬(col.UsedSize < DOC_HEADER_SIZE ∨ id ≥ col.UsedSize - DOC_HEADER_SIZE))
    (hv : col.Buf id = DOC_VALID)
    (hr : ¬(decodedRoom col id > DOC_MAX_ROOM ∨ id + decodedRoom col id ≥ col.UsedSize))
    (h5 : data.length ≤ decodedRoom col id) :
    (Update col id data).2.1 = id ∧
    (Update col id data).2.2 = none ∧
    decodedRoom (Update col id data).1 id = decodedRoom col id ∧
    Read (Update col id data).1 id =
      (if id + DOC_HEADER_SIZE + decodedRoom col id < col.Size
       then some (data ++ List.replicate (decodedRoom col id - data.length) PADDING_BYTE)
       else none) := by
  have hlen : data.length ≤ DOC_MAX_ROOM := by
    push_neg at hr
    omega
  rw [Update_eq_inplace col id data hlen hb hv hr h5]
  exact ⟨rfl, rfl, updateInPlace_decodedRoom col id data _,
    Read_updateInPlace col id data hb hv hr h5⟩

/-- C4 witness: in-place update of the slot holding `[65]` with `[66]`
keeps id 0 and reads back `[66, 32]`. -/
theorem C4_witness :
    (Insert fresh [65]).1.Buf 0 = DOC_VALID ∧
    ([66] : List Nat).length ≤ decodedRoom (Insert fresh [65]).1 0 ∧
    (Update (Insert fresh [65]).1 0 [66]).2.1 = 0 ∧
    Read (Update (Insert fresh [65]).1 0 [66]).1 0 = some [66, 32] := by
  have h := C4_update_in_place (Insert fresh [65]).1 0 [66]
    (by decide) (by decide) (by decide) (by decide)
  refine ⟨by decide, by decide, h.1, ?_⟩
  rw [h.2.2.2]
  decide

/-- C5 counterexample: updating the slot holding `[65]` (room 2) with
`[66, 67, 68]` relocates to a new id whose `Read` yields
`[66, 67, 68, 32, 32, 32]` — not `[66, 67, 68]` as the claim states
(the old id does read as absent and the id does change). -/
theorem C5_counterexample :
    (Update (Insert fresh [65]).1 0 [66, 67, 68]).2.1 ≠ 0 ∧
    Read (Update (Insert fresh [65]).1 0 [66, 67, 68]).1 0 = none ∧
    Read (Update (Insert fresh [65]).1 0 [66, 67, 68]).1
        (Update (Insert fresh [65]).1 0 [66, 67, 68]).2.1 ≠
      some [66, 67, 68] := by
  decide

/-- C5, amended: for a well-formed store (`UsedSize ≤ Size`), a valid
slot at `id` with `room < len(newData)` and
`2·len(newData) ≤ DOC_MAX_ROOM`, `Update` succeeds, returns the fresh
id `UsedSize` (different from `id`), the old id reads as absent, and
the new id reads as `newData` followed by `len(newData)` padding
bytes — provided the new slot ends strictly below the (possibly
grown) allocated size. -/
theorem C5_relocation (col : ColFile) (id : Nat) (data : List Nat)
    (hWF : col.UsedSize ≤ col.Size)
    (hb : ¬(col.UsedSize < DOC_HEADER_SIZE ∨ id ≥ col.UsedSize - DOC_HEADER_SIZE))
    (hv : col.Buf id = DOC_VALID)
    (hr : ¬(decodedRoom col id > DOC_MAX_ROOM ∨ id + decodedRoom col id ≥ col.UsedSize))
    (h5 : decodedRoom col id < data.length)
    (h6 : data.length + data.length ≤ DOC_MAX_ROOM) :
    (Update col id data).2.2 = none ∧
    (Update col id data).2.1 = col.UsedSize ∧
    (Update col id data).2.1 ≠ id ∧
    Read (Update col id data).1 id = none ∧
    Read (Update col id data).1 (Update col id data).2.1 =
      (if col.UsedSize + DOC_HEADER_SIZE + (data.length + data.length) <
          (Update col id data).1.Size
       then some (data ++ List.replicate data.length PADDING_BYTE)
       else none) := by
  have hlen : data.length ≤ DOC_MAX_ROOM := by omega
  have hida : id < col.UsedSize := by
    simp only [DOC_HEADER_SIZE] at hb
    omega
  rw [Update_eq_relocate col id data hlen hb hv hr h5,
    Insert_eq_success (Delete col id) data h6]
  rw [Delete_UsedSize]
  refine ⟨rfl, rfl, ?_, ?_, ?_⟩
  · show col.UsedSize ≠ id
    omega
  · apply read_none_of_invalid
    rw [insertLayout_Buf_low (Delete col id) data id (by rw [Delete_UsedSize]; omega)
      (by rw [Delete_Size]; omega)]
    rw [Delete_Buf_valid col id hb hv]
    simp [DOC_INVALID, DOC_VALID]
  · have hri := Read_insertLayout (Delete col id) data h6
    rw [Delete_UsedSize] at hri
    show Read (insertLayout (Delete col id) data) col.UsedSize = _
    rw [hri]
    have hp : 0 < data.length := by omega
    by_cases hc : col.UsedSize + DOC_HEADER_SIZE + (data.length + data.length) <
        (insertLayout (Delete col id) data).Size
    · rw [if_pos ⟨hp, hc⟩, if_pos hc]
    · rw [if_neg (fun hx => hc hx.2), if_neg hc]

/-- C5 witness: relocating update on the slot holding `[65]` with
`[66, 67, 68]`: new id 13, old id reads absent. -/
theorem C5_witness :
    (Update (Insert fresh [65]).1 0 [66, 67, 68]).2.1 = (Insert fresh [65]).1.UsedSize ∧
    (Update (Insert fresh [65]).1 0 [66, 67, 68]).2.1 ≠ 0 ∧
    Read (Update (Insert fresh [65]).1 0 [66, 67, 68]).1 0 = none := by
  have h := C5_relocation (Insert fresh [65]).1 0 [66, 67, 68]
    (by decide) (by decide) (by decide) (by decide) (by decide) (by decide)
  exact ⟨h.2.1, h.2.2.1, h.2.2.2.1⟩

/-- C6 counterexample: `S6bad` holds valid documents at 0 and 26 with
the middle header (offset 13) overwritten by bytes failing the
soundness check, yet `ForAll` visits ids `[0, 14]`: the byte `1` at
offset 14 stops resynchronization inside the corrupted region, a bogus
document is visited at 14, and the valid document at 26 is never
visited — the claim fails as stated. -/
theorem C6_counterexample :
    (S6bad.Buf 0 = DOC_VALID ∧ decodedRoom S6bad 0 = 2) ∧
    (S6bad.Buf 13 ≠ DOC_VALID ∧ S6bad.Buf 13 ≠ DOC_INVALID) ∧
    (S6bad.Buf 26 = DOC_VALID ∧ decodedRoom S6bad 26 = 2 ∧
      S6bad.UsedSize = 26 + DOC_HEADER_SIZE + 2) ∧
    (ForAll S6bad (fun _ _ => true)).1.map Prod.fst = [0, 14] := by
  decide

/-- C6 witness: the amended resynchronization theorem instantiated on
`S6ok` (corrupted region bytes all outside `{DOC_VALID, DOC_INVALID}`):
the documents at 0 and 26 are visited in order and offset 13 is
reported corrupted. -/
theorem C6_witness :
    ForAll S6ok (fun _ _ => true) =
      (docsOf S6ok 0 [2] ++ docsOf S6ok 26 [2], [13]) :=
  C6_corruption_resync S6ok (fun _ _ => true) (fun _ _ => rfl) [2] [2] 13 26
    (by simp only [slotsAt]; exact ⟨by decide, by decide, by decide, by decide, trivial⟩)
    (by decide)
    (Or.inl ⟨by decide, by decide⟩)
    (by
      intro i h1 h2
      interval_cases i <;> exact ⟨by decide, by decide⟩)
    (by decide)
    (by simp only [slotsAt]; exact ⟨by decide, by decide, by decide, by decide, trivial⟩)
    (by decide)
    (by simp)

/-- C7: inserting data with `2·len(data) > DOC_MAX_ROOM` fails with
the "document is too large" error and leaves the store — in
particular `UsedSize` — unchanged. -/
theorem C7_oversize_rejection (col : ColFile) (data : List Nat)
    (h : DOC_MAX_ROOM < data.length + data.length) :
    Insert col data = (col, 0, some Err.docTooLarge) ∧
    (Insert col data).1.UsedSize = col.UsedSize := by
  have he : Insert col data = (col, 0, some Err.docTooLarge) := by
    rw [Insert, if_pos (by omega)]
  exact ⟨he, by rw [he]⟩

/-- C7 witness: a 262145-byte document is rejected by a fresh store. -/
theorem C7_witness :
    DOC_MAX_ROOM < (List.replicate 262145 (0 : Nat)).length +
      (List.replicate 262145 (0 : Nat)).length ∧
    Insert fresh (List.replicate 262145 (0 : Nat)) = (fresh, 0, some Err.docTooLarge) :=
  ⟨by simp only [List.length_replicate, DOC_MAX_ROOM]; omega,
   (C7_oversize_rejection fresh _
     (by simp only [List.length_replicate, DOC_MAX_ROOM]; omega)).1⟩

/-- C8: `Delete` is idempotent and tolerant: after one or two deletes
of any id the id reads as absent, deleting twice equals deleting once,
and on an out-of-range or non-valid id `Delete` leaves the store
unchanged (it returns no error by construction — its Go signature has
no error result). -/
theorem C8_delete_idempotent (col : ColFile) (id : Nat) :
    Read (Delete col id) id = none ∧
    Delete (Delete col id) id = Delete col id ∧
    Read (Delete (Delete col id) id) id = none ∧
    ((col.UsedSize < DOC_HEADER_SIZE ∨ id ≥ col.UsedSize - DOC_HEADER_SIZE ∨
        col.Buf id ≠ DOC_VALID) → Delete col id = col) :=
  ⟨Read_Delete col id, Delete_idem col id,
   by rw [Delete_idem]; exact Read_Delete col id,
   fun h => Delete_noop col id (by tauto)⟩

/-- C8 witness: deleting the (nonexistent) id 99 in a fresh store
leaves it unchanged and reading it back is absent. -/
theorem C8_witness :
    Read (Delete fresh 99) 99 = none ∧ Delete fresh 99 = fresh :=
  ⟨(C8_delete_idempotent fresh 99).1,
   (C8_delete_idempotent fresh 99).2.2.2 (by decide)⟩

/-- C9: `UsedSize` never decreases: not under any single
`Insert`/`Update`/`Delete`, nor under any finite sequence of them. -/
theorem C9_usedsize_monotonic (col : ColFile) :
    (∀ op : Op, col.UsedSize ≤ (applyOp col op).UsedSize) ∧
    (∀ ops : List Op, col.UsedSize ≤ (runOps col ops).UsedSize) :=
  ⟨fun op => applyOp_UsedSize_mono col op,
   fun ops => runOps_UsedSize_mono col ops⟩

/-- C10: `Update` is not atomic on failure: on a valid slot with
`room < len(data) ≤ DOC_MAX_ROOM` and `2·len(data) > DOC_MAX_ROOM`,
`Update` first flips the slot to `DOC_INVALID` (via `Delete`) and then
returns the re-insert's "document is too large" error, so the original
document is lost: the store is the deleted one and `Read id` is
absent despite the reported failure. -/
theorem C10_update_not_atomic (col : ColFile) (id : Nat) (data : List Nat)
    (hb : ¬(col.UsedSize < DOC_HEADER_SIZE ∨ id ≥ col.UsedSize - DOC_HEADER_SIZE))
    (hv : col.Buf id = DOC_VALID)
    (hr : ¬(decodedRoom col id > DOC_MAX_ROOM ∨ id + decodedRoom col id ≥ col.UsedSize))
    (h5 : decodedRoom col id < data.length)
    (h6 : data.length ≤ DOC_MAX_ROOM)
    (h7 : DOC_MAX_ROOM < data.length + data.length) :
    Update col id data = (Delete col id, 0, some Err.docTooLarge) ∧
    (Update col id data).1.Buf id = DOC_INVALID ∧
    Read (Update col id data).1 id = none := by
  have he : Update col id data = Insert (Delete col id) data :=
    Update_eq_relocate col id data h6 hb hv hr h5
  have hif : Insert (Delete col id) data = (Delete col id, 0, some Err.docTooLarge) := by
    rw [Insert, if_pos (by omega)]
  have hbuf : (Delete col id).Buf id = DOC_INVALID := Delete_Buf_valid col id hb hv
  refine ⟨by rw [he, hif], by rw [he, hif]; exact hbuf, ?_⟩
  rw [he, hif]
  exact read_none_of_invalid _ _ (by rw [show (Delete col id, 0,
    some Err.docTooLarge).1.Buf id = (Delete col id).Buf id from rfl, hbuf]; simp
    [DOC_INVALID, DOC_VALID])

/-- C10 witness: updating the slot holding `[65]` (room 2) with a
262145-byte document reports "document is too large" yet leaves the
document deleted: reading id 0 afterwards is absent. -/
theorem C10_witness :
    decodedRoom (Insert fresh [65]).1 0 < (List.replicate 262145 (66 : Nat)).length ∧
    Read (Update (Insert fresh [65]).1 0 (List.replicate 262145 (66 : Nat))).1 0 = none := by
  have h := C10_update_not_atomic (Insert fresh [65]).1 0 (List.replicate 262145 (66 : Nat))
    (by decide) (by decide) (by decide)
    (by simp only [List.length_replicate]; decide)
    (by simp only [List.length_replicate, DOC_MAX_ROOM]; omega)
    (by simp only [List.length_replicate, DOC_MAX_ROOM]; omega)
  exact ⟨by simp only [List.length_replicate]; decide, h.2.2⟩

end chunkfile
